import Mathlib

/-!
Verification of the FIFO profit-and-loss matching engine in src/main.py
(class OrderManagementSystem).

Modelling choices for the shallow embedding:
* Python floats (prices, the running total) are modelled as exact rationals.
* Python int quantities are modelled as Nat (the external interface declares
  QUANTITY a non-negative integer).
* The per-symbol defaultdict of deques becomes a total function from symbol
  strings to lists, defaulting to the empty list.
* Printing a closed-trade line is modelled by returning the list of printed
  strings from place_order.
* The side values "B" / "S" become a two-valued enumeration compared by
  equality (single-character CPython strings are interned, so the identity
  comparison on line 39 of main.py behaves as equality).
* The while loop of lines 42-53 becomes the recursion matchLoop below; the
  branch that leaves a partially consumed head in place returns directly,
  which is faithful because the remaining incoming quantity is then zero and
  the loop condition fails (certified by the loop-unfolding theorem for the
  termination claim).
-/

/-- The two order sides, read from the CSV SIDE column as "B" or "S". -/
inductive Side where
  | B
  | S
  deriving DecidableEq

/-- One parsed order row (main.py lines 22-26): TIME, SYMBOL, SIDE, PRICE,
QUANTITY.  The quantity field holds the remaining unmatched quantity and is
the only field that changes during matching. -/
structure Order where
  time : Int
  symbol : String
  side : Side
  price : Rat
  quantity : Nat
  deriving DecidableEq

/-- Data of one match inside the while loop of place_order: the resting head
order at the time of the match (with its pre-match quantity), the matched
quantity, and the printed profit-and-loss value of main.py line 44. -/
structure MatchRec where
  head : Order
  q : Nat
  pnl : Rat
  deriving DecidableEq

/-- Result of running the while loop of main.py lines 42-53: the match
records in emission order, the net change applied to the running total, the
backlog left after the loop, and the remaining incoming quantity. -/
structure LoopResult where
  trades : List MatchRec
  delta : Rat
  backlog : List Order
  rem : Nat
  deriving DecidableEq

/-- State of OrderManagementSystem (main.py lines 7-9): the per-symbol queue
map and the running total. -/
structure OMS where
  queue : String → List Order
  total : Rat

/-- The freshly constructed system: every backlog empty, total zero. -/
def initOMS : OMS := ⟨fun _ => [], 0⟩

/-- Point update of the per-symbol queue map. -/
def updateQueue (f : String → List Order) (s : String) (l : List Order) :
    String → List Order :=
  fun s2 => if s2 = s then l else f s2

/-- The signed change applied to the running total by one match
(main.py lines 44-48): profit_and_loss = quantity * (incoming price - resting
price), subtracted from the total when the incoming side is B and added when
it is S. -/
def matchDelta (o hd : Order) (quantity : Nat) : Rat :=
  let profit_and_loss := (quantity : Rat) * (o.price - hd.price)
  if o.side = Side.B then -profit_and_loss else profit_and_loss

/-- Round a non-negative rational to the nearest integer, ties to even,
matching how Python rounds when formatting with two fractional digits. -/
def rhe (x : Rat) : Nat :=
  let f := x.floor
  let fr := x - (f : Rat)
  (if fr < 1 / 2 then f
   else if 1 / 2 < fr then f + 1
   else if f % 2 = 0 then f else f + 1).toNat

/-- The Python format specifier .2f on an exact value: optional minus sign,
integer part, a dot, and exactly two digits. -/
def fmt2 (x : Rat) : String :=
  let m := rhe (|x| * 100)
  (if x < 0 then "-" else "") ++ toString (m / 100) ++ "." ++
    String.mk [Nat.digitChar (m / 10 % 10), Nat.digitChar (m % 10)]

/-- Rendering of a side value, as it appears in the CSV and in output. -/
def sideStr : Side → String
  | Side.B => "B"
  | Side.S => "S"

/-- The opposite of a side. -/
def opposite : Side → Side
  | Side.B => Side.S
  | Side.S => Side.B

/-- close_order (main.py lines 57-76): the printed line for one closed trade.
The second Python parameter is the pending deque; this embedding passes its
front element hd directly, since only pending[0] is read. -/
def close_order (order hd : Order) (quantity : Nat) (profit_and_loss : Rat) :
    String :=
  toString hd.time ++ "," ++
    toString order.time ++ "," ++
    order.symbol ++ "," ++
    toString quantity ++ "," ++
    fmt2 profit_and_loss ++ "," ++
    sideStr hd.side ++ "," ++
    (if hd.side = Side.B then "S" else "B") ++ "," ++
    fmt2 hd.price ++ "," ++
    fmt2 order.price

/-- The while loop of main.py lines 42-53, acting on the remaining incoming
quantity oq and the backlog.  Each iteration matches quantity
min(oq, head.quantity), records the printed profit-and-loss, accumulates the
signed total change, decrements both sides, and pops the head when its
quantity reaches zero.  When the head keeps a nonzero quantity the matched
quantity was the whole of oq, so the loop condition fails and the function
returns with the partially consumed head in place. -/
def matchLoop (o : Order) : Nat → List Order → LoopResult
  | oq, [] => ⟨[], 0, [], oq⟩
  | oq, hd :: t =>
    if oq = 0 then ⟨[], 0, hd :: t, oq⟩
    else
      let quantity := min oq hd.quantity
      let profit_and_loss := (quantity : Rat) * (o.price - hd.price)
      let delta := if o.side = Side.B then -profit_and_loss else profit_and_loss
      if hd.quantity - quantity = 0 then
        let r := matchLoop o (oq - quantity) t
        ⟨⟨hd, quantity, profit_and_loss⟩ :: r.trades, delta + r.delta,
          r.backlog, r.rem⟩
      else
        ⟨[⟨hd, quantity, profit_and_loss⟩], delta,
          { hd with quantity := hd.quantity - quantity } :: t, oq - quantity⟩

/-- The guard on main.py line 39: the backlog is empty, or its front order
has the same side as the incoming order; in either case the order is
appended without matching. -/
def sameSideOrEmpty (pending : List Order) (o : Order) : Bool :=
  match pending with
  | [] => true
  | hd :: _ => o.side == hd.side

/-- place_order (main.py lines 32-55).  Returns the printed closed-trade
lines and the successor state. -/
def place_order (oms : OMS) (o : Order) : List String × OMS :=
  let pending := oms.queue o.symbol
  if sameSideOrEmpty pending o then
    ([], { oms with queue := updateQueue oms.queue o.symbol (pending ++ [o]) })
  else
    let r := matchLoop o o.quantity pending
    let trades := r.trades.map fun m => close_order o m.head m.q m.pnl
    let newBacklog :=
      if r.rem ≠ 0 then r.backlog ++ [{ o with quantity := r.rem }] else r.backlog
    (trades,
      { queue := updateQueue oms.queue o.symbol newBacklog,
        total := oms.total + r.delta })

/-- Submitting a whole stream of orders to a fresh system, as run does
(main.py lines 11-30) after parsing. -/
def submitAll (orders : List Order) : OMS :=
  orders.foldl (fun st o => (place_order st o).2) initOMS

/-- Total resting quantity of a backlog. -/
def qsum (l : List Order) : Nat := (l.map Order.quantity).sum

/-- Total matched quantity reported by a list of match records. -/
def tradesQ (l : List MatchRec) : Nat := (l.map MatchRec.q).sum

/-- Side purity of a queue map: every backlog is empty or single-sided. -/
def SidePure (f : String → List Order) : Prop :=
  ∀ s, ∀ a ∈ f s, ∀ b ∈ f s, a.side = b.side

/-- One iteration of the while loop body (main.py lines 43-53), exposed for
the termination argument: the emitted match record, the new remaining
incoming quantity, and the new backlog. -/
def loopIter (o : Order) (oq : Nat) (hd : Order) (t : List Order) :
    MatchRec × Nat × List Order :=
  let quantity := min oq hd.quantity
  let profit_and_loss := (quantity : Rat) * (o.price - hd.price)
  (⟨hd, quantity, profit_and_loss⟩, oq - quantity,
    if hd.quantity - quantity = 0 then t
    else { hd with quantity := hd.quantity - quantity } :: t)

/-! ## Unfolding lemmas for the while loop -/

lemma matchLoop_nil (o : Order) (oq : Nat) : matchLoop o oq [] = ⟨[], 0, [], oq⟩ :=
  rfl

lemma matchLoop_zero (o : Order) (bl : List Order) :
    matchLoop o 0 bl = ⟨[], 0, bl, 0⟩ := by
  cases bl <;> rfl

lemma matchLoop_cons_pop (o : Order) (oq : Nat) (hd : Order) (t : List Order)
    (h : oq ≠ 0) (hq : hd.quantity - min oq hd.quantity = 0) :
    matchLoop o oq (hd :: t) =
      ⟨⟨hd, min oq hd.quantity,
          ((min oq hd.quantity : Nat) : Rat) * (o.price - hd.price)⟩ ::
            (matchLoop o (oq - min oq hd.quantity) t).trades,
        matchDelta o hd (min oq hd.quantity) +
          (matchLoop o (oq - min oq hd.quantity) t).delta,
        (matchLoop o (oq - min oq hd.quantity) t).backlog,
        (matchLoop o (oq - min oq hd.quantity) t).rem⟩ := by
  simp only [matchLoop, matchDelta, if_neg h, if_pos hq]

lemma matchLoop_cons_keep (o : Order) (oq : Nat) (hd : Order) (t : List Order)
    (h : oq ≠ 0) (hq : hd.quantity - min oq hd.quantity ≠ 0) :
    matchLoop o oq (hd :: t) =
      ⟨[⟨hd, min oq hd.quantity,
          ((min oq hd.quantity : Nat) : Rat) * (o.price - hd.price)⟩],
        matchDelta o hd (min oq hd.quantity),
        { hd with quantity := hd.quantity - min oq hd.quantity } :: t,
        oq - min oq hd.quantity⟩ := by
  simp only [matchLoop, matchDelta, if_neg h, if_neg hq]

/-! ## Structural lemmas about the loop -/

/-- A nonzero remainder is only possible once the backlog is exhausted. -/
lemma matchLoop_rem_ne_zero (o : Order) (oq : Nat) (bl : List Order)
    (h : (matchLoop o oq bl).rem ≠ 0) : (matchLoop o oq bl).backlog = [] := by
  induction bl generalizing oq with
  | nil => rfl
  | cons hd t ih =>
    by_cases h0 : oq = 0
    · subst h0
      rw [matchLoop_zero] at h
      exact absurd rfl h
    · by_cases hq : hd.quantity - min oq hd.quantity = 0
      · rw [matchLoop_cons_pop o oq hd t h0 hq] at h ⊢
        exact ih _ h
      · rw [matchLoop_cons_keep o oq hd t h0 hq] at h
        dsimp only at h
        exact absurd (by omega) h

/-- The incoming quantity is conserved: what the loop did not consume plus
the total quantity reported in the match records is the input quantity. -/
lemma matchLoop_incoming (o : Order) (oq : Nat) (bl : List Order) :
    oq = (matchLoop o oq bl).rem + tradesQ (matchLoop o oq bl).trades := by
  induction bl generalizing oq with
  | nil => simp [matchLoop_nil, tradesQ]
  | cons hd t ih =>
    by_cases h0 : oq = 0
    · subst h0
      simp [matchLoop_zero, tradesQ]
    · by_cases hq : hd.quantity - min oq hd.quantity = 0
      · rw [matchLoop_cons_pop o oq hd t h0 hq]
        have h1 := ih (oq - min oq hd.quantity)
        simp only [tradesQ, List.map_cons, List.sum_cons] at h1 ⊢
        omega
      · rw [matchLoop_cons_keep o oq hd t h0 hq]
        simp only [tradesQ, List.map_cons, List.map_nil, List.sum_cons,
          List.sum_nil]
        omega

/-- The resting quantity is conserved: the input backlog quantity equals the
output backlog quantity plus the total quantity reported. -/
lemma matchLoop_resting (o : Order) (oq : Nat) (bl : List Order) :
    qsum bl = qsum (matchLoop o oq bl).backlog +
      tradesQ (matchLoop o oq bl).trades := by
  induction bl generalizing oq with
  | nil => simp [matchLoop_nil, tradesQ, qsum]
  | cons hd t ih =>
    by_cases h0 : oq = 0
    · subst h0
      simp [matchLoop_zero, tradesQ]
    · by_cases hq : hd.quantity - min oq hd.quantity = 0
      · rw [matchLoop_cons_pop o oq hd t h0 hq]
        have h1 := ih (oq - min oq hd.quantity)
        simp only [qsum, tradesQ, List.map_cons, List.sum_cons] at h1 ⊢
        omega
      · rw [matchLoop_cons_keep o oq hd t h0 hq]
        simp only [qsum, tradesQ, List.map_cons, List.map_nil, List.sum_cons,
          List.sum_nil]
        omega

/-- Every order left in the backlog by the loop is an input backlog order,
identical except for a possibly smaller quantity; and it can only have
quantity zero if it already arrived with quantity zero. -/
lemma matchLoop_backlog_mem (o : Order) (oq : Nat) (bl : List Order) :
    ∀ x ∈ (matchLoop o oq bl).backlog,
      ∃ y ∈ bl, x = { y with quantity := x.quantity } ∧
        x.quantity ≤ y.quantity ∧ (x.quantity = 0 → y.quantity = 0) := by
  induction bl generalizing oq with
  | nil =>
    intro x hx
    simp [matchLoop_nil] at hx
  | cons hd t ih =>
    intro x hx
    by_cases h0 : oq = 0
    · subst h0
      rw [matchLoop_zero] at hx
      exact ⟨x, hx, rfl, le_refl _, fun h => h⟩
    · by_cases hq : hd.quantity - min oq hd.quantity = 0
      · rw [matchLoop_cons_pop o oq hd t h0 hq] at hx
        obtain ⟨y, hy, h1, h2, h3⟩ := ih (oq - min oq hd.quantity) x hx
        exact ⟨y, List.mem_cons_of_mem hd hy, h1, h2, h3⟩
      · rw [matchLoop_cons_keep o oq hd t h0 hq] at hx
        rcases List.mem_cons.mp hx with h | h
        · refine ⟨hd, List.mem_cons_self hd t, ?_, ?_, ?_⟩
          · rw [h]
          · rw [h]
            dsimp only
            omega
          · intro hz
            rw [h] at hz
            dsimp only at hz
            exact absurd hz hq
        · exact ⟨x, List.mem_cons_of_mem hd h, rfl, le_refl _, fun h => h⟩

/-- The accumulated total change of the loop is the sum, over the emitted
match records, of the signed per-match change. -/
lemma matchLoop_delta_sum (o : Order) (oq : Nat) (bl : List Order) :
    (matchLoop o oq bl).delta =
      ((matchLoop o oq bl).trades.map fun r => matchDelta o r.head r.q).sum := by
  induction bl generalizing oq with
  | nil => simp [matchLoop_nil]
  | cons hd t ih =>
    by_cases h0 : oq = 0
    · subst h0
      simp [matchLoop_zero]
    · by_cases hq : hd.quantity - min oq hd.quantity = 0
      · rw [matchLoop_cons_pop o oq hd t h0 hq]
        simp only [List.map_cons, List.sum_cons]
        rw [ih (oq - min oq hd.quantity)]
      · rw [matchLoop_cons_keep o oq hd t h0 hq]
        simp

/-- An exactly matching incoming quantity consumes a backlog of orders with
nonzero quantities completely and leaves no remainder. -/
lemma matchLoop_exact (o : Order) (bl : List Order)
    (h : ∀ y ∈ bl, y.quantity ≠ 0) :
    (matchLoop o (qsum bl) bl).backlog = [] ∧
      (matchLoop o (qsum bl) bl).rem = 0 := by
  induction bl with
  | nil => simp [qsum, matchLoop_nil]
  | cons hd t ih =>
    have hhd : hd.quantity ≠ 0 := h hd (List.mem_cons_self hd t)
    have hsum : qsum (hd :: t) = hd.quantity + qsum t := by
      simp [qsum]
    have h0 : qsum (hd :: t) ≠ 0 := by omega
    have hmin : min (qsum (hd :: t)) hd.quantity = hd.quantity := by omega
    have hq : hd.quantity - min (qsum (hd :: t)) hd.quantity = 0 := by omega
    rw [matchLoop_cons_pop o _ hd t h0 hq]
    have harg : qsum (hd :: t) - min (qsum (hd :: t)) hd.quantity = qsum t := by
      omega
    rw [harg]
    exact ih fun y hy => h y (List.mem_cons_of_mem hd hy)

/-! ## Lemmas about place_order -/

/-- When the line 39 guard holds, place_order only appends. -/
lemma place_order_eq_append (oms : OMS) (o : Order)
    (h : sameSideOrEmpty (oms.queue o.symbol) o = true) :
    place_order oms o =
      ([], { oms with
        queue := updateQueue oms.queue o.symbol (oms.queue o.symbol ++ [o]) }) := by
  simp only [place_order, h, if_true]

/-- When the line 39 guard fails, place_order runs the matching loop. -/
lemma place_order_eq_match (oms : OMS) (o : Order)
    (h : sameSideOrEmpty (oms.queue o.symbol) o = false) :
    place_order oms o =
      ((matchLoop o o.quantity (oms.queue o.symbol)).trades.map fun m =>
          close_order o m.head m.q m.pnl,
        { queue := updateQueue oms.queue o.symbol
            (if (matchLoop o o.quantity (oms.queue o.symbol)).rem ≠ 0 then
              (matchLoop o o.quantity (oms.queue o.symbol)).backlog ++
                [{ o with
                    quantity := (matchLoop o o.quantity (oms.queue o.symbol)).rem }]
            else (matchLoop o o.quantity (oms.queue o.symbol)).backlog),
          total := oms.total + (matchLoop o o.quantity (oms.queue o.symbol)).delta }) := by
  simp only [place_order, h, Bool.false_eq_true, if_false]

/-- Submitting one order preserves side purity of every backlog. -/
lemma sidePure_place_order (oms : OMS) (o : Order) (h : SidePure oms.queue) :
    SidePure (place_order oms o).2.queue := by
  intro s a ha b hb
  by_cases hg : sameSideOrEmpty (oms.queue o.symbol) o = true
  · rw [place_order_eq_append oms o hg] at ha hb
    dsimp only [updateQueue] at ha hb
    by_cases hs : s = o.symbol
    · rw [if_pos hs] at ha hb
      have key : ∀ c ∈ oms.queue o.symbol ++ [o], c.side = o.side := by
        intro c hc
        rcases List.mem_append.mp hc with hc | hc
        · cases hq : oms.queue o.symbol with
          | nil => rw [hq] at hc; exact absurd hc (List.not_mem_nil c)
          | cons hd t =>
            rw [hq] at hc
            have hside : o.side = hd.side := by
              unfold sameSideOrEmpty at hg
              rw [hq] at hg
              exact beq_iff_eq.mp hg
            have : c.side = hd.side :=
              h o.symbol c (by rw [hq]; exact hc) hd
                (by rw [hq]; exact List.mem_cons_self hd t)
            rw [this, hside]
        · rw [List.mem_singleton.mp hc]
      rw [key a ha, key b hb]
    · rw [if_neg hs] at ha hb
      exact h s a ha b hb
  · have hg2 : sameSideOrEmpty (oms.queue o.symbol) o = false :=
      Bool.not_eq_true _ ▸ Bool.eq_false_iff.mpr hg
    rw [place_order_eq_match oms o hg2] at ha hb
    dsimp only [updateQueue] at ha hb
    by_cases hs : s = o.symbol
    · rw [if_pos hs] at ha hb
      by_cases hrem : (matchLoop o o.quantity (oms.queue o.symbol)).rem ≠ 0
      · rw [if_pos hrem, matchLoop_rem_ne_zero o o.quantity _ hrem] at ha hb
        rw [List.nil_append] at ha hb
        rw [List.mem_singleton.mp ha, List.mem_singleton.mp hb]
      · rw [if_neg hrem] at ha hb
        obtain ⟨ya, hya, h1a, _, _⟩ := matchLoop_backlog_mem o o.quantity _ a ha
        obtain ⟨yb, hyb, h1b, _, _⟩ := matchLoop_backlog_mem o o.quantity _ b hb
        have hsa : a.side = ya.side := by rw [h1a]
        have hsb : b.side = yb.side := by rw [h1b]
        rw [hsa, hsb]
        exact h o.symbol ya hya yb hyb
    · rw [if_neg hs] at ha hb
      exact h s a ha b hb

/-! ## Claim theorems -/

/-- C1: every match of quantity q between a buy leg at price P_b and a sell
leg at price P_s changes the running total by exactly q * (P_s - P_b); the
accumulator change is minus quantity * (incoming price - resting price) for
an incoming buy and plus that amount for an incoming sell, and the total
change of a whole loop run is the sum of the per-match changes. -/
theorem matchDelta_sign_convention (o hd : Order) (q oq : Nat)
    (bl : List Order) (h : o.side ≠ hd.side) :
    matchDelta o hd q =
        (q : Rat) * ((if o.side = Side.S then o.price else hd.price) -
          (if o.side = Side.B then o.price else hd.price)) ∧
      matchDelta o hd q =
        (if o.side = Side.B then -((q : Rat) * (o.price - hd.price))
         else (q : Rat) * (o.price - hd.price)) ∧
      (matchLoop o oq bl).delta =
        ((matchLoop o oq bl).trades.map fun r => matchDelta o r.head r.q).sum := by
  refine ⟨?_, rfl, matchLoop_delta_sum o oq bl⟩
  cases ho : o.side <;> cases hh : hd.side <;>
    simp [matchDelta, ho, hh] at h ⊢
  all_goals ring

/-- Witness for C1 at a concrete match: an incoming sell at 12 against a
resting buy at 10 for 5 units contributes 5 * (12 - 10) = 10. -/
theorem matchDelta_sign_convention_witness :
    matchDelta ⟨1, "X", Side.S, 12, 5⟩ ⟨0, "X", Side.B, 10, 5⟩ 5 = 10 :=
  ((matchDelta_sign_convention ⟨1, "X", Side.S, 12, 5⟩ ⟨0, "X", Side.B, 10, 5⟩
      5 0 [] (by decide)).1).trans (by simp; norm_num)

/-- The heads matched by one loop run are exactly an initial segment of the
backlog, in backlog order. -/
lemma matchLoop_heads_take (o : Order) (oq : Nat) (bl : List Order) :
    (matchLoop o oq bl).trades.map MatchRec.head =
      bl.take (matchLoop o oq bl).trades.length := by
  induction bl generalizing oq with
  | nil => simp [matchLoop_nil]
  | cons hd t ih =>
    by_cases h0 : oq = 0
    · subst h0
      simp [matchLoop_zero]
    · by_cases hq : hd.quantity - min oq hd.quantity = 0
      · rw [matchLoop_cons_pop o oq hd t h0 hq]
        dsimp only
        rw [List.map_cons, List.length_cons, List.take_succ_cons,
          ih (oq - min oq hd.quantity)]
      · rw [matchLoop_cons_keep o oq hd t h0 hq]
        simp

/-- Every match record except possibly the last consumed its resting order
completely. -/
lemma matchLoop_dropLast_full (o : Order) (oq : Nat) (bl : List Order) :
    ∀ r ∈ (matchLoop o oq bl).trades.dropLast, r.q = r.head.quantity := by
  induction bl generalizing oq with
  | nil =>
    intro r hr
    simp [matchLoop_nil] at hr
  | cons hd t ih =>
    intro r hr
    by_cases h0 : oq = 0
    · subst h0
      rw [matchLoop_zero] at hr
      simp at hr
    · by_cases hq : hd.quantity - min oq hd.quantity = 0
      · rw [matchLoop_cons_pop o oq hd t h0 hq] at hr
        dsimp only at hr
        rcases hrest : (matchLoop o (oq - min oq hd.quantity) t).trades with
          _ | ⟨x, xs⟩
        · rw [hrest] at hr
          simp at hr
        · rw [hrest, List.dropLast_cons₂] at hr
          rcases List.mem_cons.mp hr with hr | hr
          · rw [hr]
            dsimp only
            omega
          · have := ih (oq - min oq hd.quantity) r
            rw [hrest] at this
            exact this hr
      · rw [matchLoop_cons_keep o oq hd t h0 hq] at hr
        simp at hr

/-- C2: matching consumes resting orders strictly in arrival order: the
match records of one submit list an initial segment of the backlog as their
resting legs, in backlog order, and every record before the last one
consumed the whole remaining quantity of its resting order. -/
theorem matchLoop_fifo_order (o : Order) (oq : Nat) (bl : List Order) :
    (matchLoop o oq bl).trades.map MatchRec.head =
        bl.take (matchLoop o oq bl).trades.length ∧
      ∀ r ∈ (matchLoop o oq bl).trades.dropLast, r.q = r.head.quantity :=
  ⟨matchLoop_heads_take o oq bl, matchLoop_dropLast_full o oq bl⟩

/-- C3: side purity is an invariant of submission: after any sequence of
submitted orders, every backlog is empty or single-sided. -/
theorem submitAll_side_pure (orders : List Order) :
    SidePure (submitAll orders).queue := by
  have hgen : ∀ (l : List Order) (st : OMS), SidePure st.queue →
      SidePure (l.foldl (fun s o => (place_order s o).2) st).queue := by
    intro l
    induction l with
    | nil => exact fun st h => h
    | cons o t ih => exact fun st h => ih _ (sidePure_place_order st o h)
  refine hgen orders initOMS ?_
  intro s a ha
  simp [initOMS] at ha

/-- C4: one match step consumes min(incoming remaining, front resting
quantity): the first match record of a loop run reports exactly that
quantity against the front order, and over the whole run the consumed
quantities balance on both the incoming and the resting side. -/
theorem matchLoop_consumed_min (o : Order) (oq : Nat) (hd : Order)
    (t : List Order) (h : oq ≠ 0) :
    (matchLoop o oq (hd :: t)).trades.head? =
        some ⟨hd, min oq hd.quantity,
          ((min oq hd.quantity : Nat) : Rat) * (o.price - hd.price)⟩ ∧
      oq = (matchLoop o oq (hd :: t)).rem +
        tradesQ (matchLoop o oq (hd :: t)).trades ∧
      qsum (hd :: t) = qsum (matchLoop o oq (hd :: t)).backlog +
        tradesQ (matchLoop o oq (hd :: t)).trades := by
  refine ⟨?_, matchLoop_incoming o oq (hd :: t), matchLoop_resting o oq (hd :: t)⟩
  by_cases hq : hd.quantity - min oq hd.quantity = 0
  · rw [matchLoop_cons_pop o oq hd t h hq]
    rfl
  · rw [matchLoop_cons_keep o oq hd t h hq]
    rfl

/-- Witness for C4: a sell for 5 against resting buys of 2 and 4 units first
consumes min(5, 2) = 2 from the front order, and the quantities balance. -/
theorem matchLoop_consumed_min_witness :
    (matchLoop ⟨2, "X", Side.S, 12, 5⟩ 5
        [⟨0, "X", Side.B, 10, 2⟩, ⟨1, "X", Side.B, 11, 4⟩]).trades.head? =
        some ⟨⟨0, "X", Side.B, 10, 2⟩, min 5 2,
          ((min 5 2 : Nat) : Rat) * (12 - 10)⟩ ∧
      5 = (matchLoop ⟨2, "X", Side.S, 12, 5⟩ 5
          [⟨0, "X", Side.B, 10, 2⟩, ⟨1, "X", Side.B, 11, 4⟩]).rem +
        tradesQ (matchLoop ⟨2, "X", Side.S, 12, 5⟩ 5
          [⟨0, "X", Side.B, 10, 2⟩, ⟨1, "X", Side.B, 11, 4⟩]).trades ∧
      qsum [⟨0, "X", Side.B, 10, 2⟩, ⟨1, "X", Side.B, 11, 4⟩] =
        qsum (matchLoop ⟨2, "X", Side.S, 12, 5⟩ 5
          [⟨0, "X", Side.B, 10, 2⟩, ⟨1, "X", Side.B, 11, 4⟩]).backlog +
        tradesQ (matchLoop ⟨2, "X", Side.S, 12, 5⟩ 5
          [⟨0, "X", Side.B, 10, 2⟩, ⟨1, "X", Side.B, 11, 4⟩]).trades :=
  matchLoop_consumed_min ⟨2, "X", Side.S, 12, 5⟩ 5 ⟨0, "X", Side.B, 10, 2⟩
    [⟨1, "X", Side.B, 11, 4⟩] (by decide)

/-- C5: an incoming order facing an empty or same-side backlog produces no
trades, leaves the total unchanged, and is appended in full to the back of
its backlog. -/
theorem place_order_append_no_match (oms : OMS) (o : Order)
    (h : oms.queue o.symbol = [] ∨
      ∃ hd t, oms.queue o.symbol = hd :: t ∧ hd.side = o.side) :
    (place_order oms o).1 = [] ∧
      (place_order oms o).2.total = oms.total ∧
      (place_order oms o).2.queue o.symbol = oms.queue o.symbol ++ [o] := by
  have hg : sameSideOrEmpty (oms.queue o.symbol) o = true := by
    rcases h with h | ⟨hd, t, h1, h2⟩
    · rw [h]
      rfl
    · rw [h1]
      simp [sameSideOrEmpty, h2]
  rw [place_order_eq_append oms o hg]
  refine ⟨rfl, rfl, ?_⟩
  dsimp only [updateQueue]
  rw [if_pos rfl]

/-- Witness for C5: the first order on a fresh system is appended with no
trades and no total change. -/
theorem place_order_append_no_match_witness :
    (place_order initOMS ⟨0, "X", Side.B, 10, 5⟩).1 = [] ∧
      (place_order initOMS ⟨0, "X", Side.B, 10, 5⟩).2.total = initOMS.total ∧
      (place_order initOMS ⟨0, "X", Side.B, 10, 5⟩).2.queue "X" =
        initOMS.queue "X" ++ [⟨0, "X", Side.B, 10, 5⟩] :=
  place_order_append_no_match initOMS ⟨0, "X", Side.B, 10, 5⟩ (Or.inl rfl)

/-- C6 counterexample: a resting zero-quantity buy order does cause a
ClosedTrade record to be emitted when an opposite-side order arrives — the
submit that brings in a sell for 1 unit prints one (zero-quantity) line, so
the resting zero-quantity entry is not silent. -/
theorem zero_quantity_emits_trade :
    ((place_order (place_order initOMS ⟨0, "X", Side.B, 10, 0⟩).2
        ⟨1, "X", Side.S, 12, 1⟩).1).length = 1 := by
  decide

/-- C6 amended: submitting an order of quantity zero emits no trade records
and leaves the total unchanged (and always succeeds, the embedding being a
total function); a resting zero-quantity front order contributes no quantity
and no profit-and-loss when an opposite-side order with nonzero quantity
arrives, but it does produce one zero-quantity match record as it is popped. -/
theorem zero_quantity_no_match (oms : OMS) (o o2 hd : Order) (t : List Order)
    (oq : Nat) (h1 : o.quantity = 0) (h2 : hd.quantity = 0) (h3 : oq ≠ 0) :
    (place_order oms o).1 = [] ∧
      (place_order oms o).2.total = oms.total ∧
      matchLoop o2 oq (hd :: t) =
        ⟨⟨hd, 0, 0⟩ :: (matchLoop o2 oq t).trades, (matchLoop o2 oq t).delta,
          (matchLoop o2 oq t).backlog, (matchLoop o2 oq t).rem⟩ := by
  refine ⟨?_, ?_, ?_⟩
  · by_cases hg : sameSideOrEmpty (oms.queue o.symbol) o = true
    · rw [place_order_eq_append oms o hg]
    · have hg2 : sameSideOrEmpty (oms.queue o.symbol) o = false :=
        Bool.eq_false_iff.mpr hg
      rw [place_order_eq_match oms o hg2]
      rw [h1, matchLoop_zero]
      rfl
  · by_cases hg : sameSideOrEmpty (oms.queue o.symbol) o = true
    · rw [place_order_eq_append oms o hg]
    · have hg2 : sameSideOrEmpty (oms.queue o.symbol) o = false :=
        Bool.eq_false_iff.mpr hg
      rw [place_order_eq_match oms o hg2]
      rw [h1, matchLoop_zero]
      exact add_zero oms.total
  · have hq : hd.quantity - min oq hd.quantity = 0 := by omega
    rw [matchLoop_cons_pop o2 oq hd t h3 hq]
    simp [h2, matchDelta]

/-- Witness for C6 amended: a buy of quantity zero rests silently, and a
zero-quantity resting order yields a single zero-quantity zero-PnL record
against a sell for 5 units. -/
theorem zero_quantity_no_match_witness :
    (place_order initOMS ⟨0, "X", Side.B, 10, 0⟩).1 = [] ∧
      (place_order initOMS ⟨0, "X", Side.B, 10, 0⟩).2.total = initOMS.total ∧
      matchLoop ⟨1, "X", Side.S, 12, 5⟩ 5 [⟨0, "X", Side.B, 10, 0⟩] =
        ⟨⟨⟨0, "X", Side.B, 10, 0⟩, 0, 0⟩ ::
            (matchLoop ⟨1, "X", Side.S, 12, 5⟩ 5 []).trades,
          (matchLoop ⟨1, "X", Side.S, 12, 5⟩ 5 []).delta,
          (matchLoop ⟨1, "X", Side.S, 12, 5⟩ 5 []).backlog,
          (matchLoop ⟨1, "X", Side.S, 12, 5⟩ 5 []).rem⟩ :=
  zero_quantity_no_match initOMS ⟨0, "X", Side.B, 10, 0⟩ ⟨1, "X", Side.S, 12, 5⟩
    ⟨0, "X", Side.B, 10, 0⟩ [] 5 rfl rfl (by decide)

/-- C7 counterexample: a backlog holding a sell of 5 units and a sell of 0
units has total resting quantity 5, yet an incoming buy for exactly 5 units
leaves the zero-quantity entry behind — the backlog is not emptied. -/
theorem exact_consume_leaves_entry :
    (place_order (place_order (place_order initOMS ⟨0, "X", Side.S, 10, 5⟩).2
        ⟨1, "X", Side.S, 11, 0⟩).2 ⟨2, "X", Side.B, 12, 5⟩).2.queue "X" =
      [⟨1, "X", Side.S, 11, 0⟩] := by
  decide

/-- C7 amended: when every resting order has nonzero quantity, an incoming
opposite-side order whose quantity exactly equals the backlog total leaves
that backlog empty and appends nothing. -/
theorem exact_consume_empties (oms : OMS) (o hd : Order) (t : List Order)
    (h1 : oms.queue o.symbol = hd :: t) (h2 : o.side ≠ hd.side)
    (h3 : ∀ y ∈ hd :: t, y.quantity ≠ 0) (h4 : o.quantity = qsum (hd :: t)) :
    (place_order oms o).2.queue o.symbol = [] := by
  have hg : sameSideOrEmpty (oms.queue o.symbol) o = false := by
    rw [h1]
    simp only [sameSideOrEmpty, beq_eq_false_iff_ne, ne_eq]
    exact h2
  rw [place_order_eq_match oms o hg]
  dsimp only [updateQueue]
  rw [if_pos rfl, h1, h4]
  have hex := matchLoop_exact o (hd :: t) h3
  simp [hex.1, hex.2]

/-- Witness for C7 amended: a sell for 5 against a single resting buy of 5
units empties the backlog. -/
theorem exact_consume_empties_witness :
    (place_order ⟨fun s => if s = "X" then [⟨0, "X", Side.B, 10, 5⟩] else [], 0⟩
        ⟨1, "X", Side.S, 12, 5⟩).2.queue "X" = [] :=
  exact_consume_empties ⟨fun s => if s = "X" then [⟨0, "X", Side.B, 10, 5⟩] else [], 0⟩
    ⟨1, "X", Side.S, 12, 5⟩ ⟨0, "X", Side.B, 10, 5⟩ [] (by decide) (by decide)
    (by decide) (by decide)

/-- C8 counterexample: a backlog can contain a zero-quantity order — an
order submitted with quantity zero against an empty backlog rests there. -/
theorem zero_quantity_rests :
    (place_order initOMS ⟨0, "X", Side.B, 10, 0⟩).2.queue "X" =
        [⟨0, "X", Side.B, 10, 0⟩] ∧
      (⟨0, "X", Side.B, 10, 0⟩ : Order).quantity = 0 :=
  ⟨by decide, rfl⟩

/-- C8 amended: during matching an order's quantity only ever decreases and
a resting order is dropped as soon as matching brings its quantity to zero:
every order left in the backlog by the loop agrees with some input backlog
order on every field except that its quantity may be smaller, and it can
only be zero if that order already arrived with quantity zero (zero-quantity
entries are never created by matching, only by appending zero-quantity
orders). -/
theorem backlog_from_input_decreasing (o : Order) (oq : Nat) (bl : List Order) :
    ((matchLoop o oq bl).backlog.all fun x =>
      bl.any fun y =>
        decide (x.time = y.time) && decide (x.symbol = y.symbol) &&
          decide (x.side = y.side) && decide (x.price = y.price) &&
          decide (x.quantity ≤ y.quantity) &&
          (!decide (x.quantity = 0) || decide (y.quantity = 0))) = true := by
  rw [List.all_eq_true]
  intro x hx
  obtain ⟨y, hy, h1, h2, h3⟩ := matchLoop_backlog_mem o oq bl x hx
  rw [List.any_eq_true]
  refine ⟨y, hy, ?_⟩
  have ht : x.time = y.time := by rw [h1]
  have hsym : x.symbol = y.symbol := by rw [h1]
  have hside : x.side = y.side := by rw [h1]
  have hp : x.price = y.price := by rw [h1]
  simp only [Bool.and_eq_true, Bool.or_eq_true, Bool.not_eq_true',
    decide_eq_true_eq, decide_eq_false_iff_not]
  refine ⟨⟨⟨⟨⟨ht, hsym⟩, hside⟩, hp⟩, h2⟩, ?_⟩
  by_cases hz : x.quantity = 0
  · exact Or.inr (h3 hz)
  · exact Or.inl hz

/-- Decimal digit characters are digits. -/
lemma digitChar_isDigit {d : Nat} (h : d < 10) :
    (Nat.digitChar d).isDigit = true := by
  interval_cases d <;> rfl

/-- C9: the closed-trade line is a pure function of the opening order, the
closing order, the matched quantity and the PnL value; it never reads the
closing order's side (replacing that side changes nothing); its fields
appear in the order OPEN_TIME, CLOSE_TIME, SYMBOL, QUANTITY, PNL, OPEN_SIDE,
CLOSE_SIDE, OPEN_PRICE, CLOSE_PRICE with the close side derived as the
opposite of the open side; and every value rendered by fmt2 ends in a dot
followed by exactly two digits. -/
theorem close_order_fields (o hd : Order) (q : Nat) (pnl : Rat) (s : Side) :
    close_order { o with side := s } hd q pnl = close_order o hd q pnl ∧
      close_order o hd q pnl =
        toString hd.time ++ "," ++ toString o.time ++ "," ++ o.symbol ++ "," ++
          toString q ++ "," ++ fmt2 pnl ++ "," ++ sideStr hd.side ++ "," ++
          sideStr (opposite hd.side) ++ "," ++ fmt2 hd.price ++ "," ++
          fmt2 o.price ∧
      ∀ x : Rat, ∃ p c1 c2, fmt2 x = p ++ "." ++ String.mk [c1, c2] ∧
        c1.isDigit = true ∧ c2.isDigit = true := by
  refine ⟨rfl, ?_, ?_⟩
  · obtain ⟨t1, s1, sd, p1, q1⟩ := hd
    cases sd <;> rfl
  · intro x
    refine ⟨(if x < 0 then "-" else "") ++ toString (rhe (|x| * 100) / 100),
      Nat.digitChar (rhe (|x| * 100) / 10 % 10),
      Nat.digitChar (rhe (|x| * 100) % 10), rfl,
      digitChar_isDigit ?_, digitChar_isDigit ?_⟩
    · omega
    · omega

/-- C10: the matching loop terminates: whenever the while condition holds
(non-empty backlog and nonzero remaining incoming quantity), one loop
iteration strictly decreases the measure backlog length plus remaining
quantity, and matchLoop — a total function — satisfies exactly the
one-iteration unfolding of the while loop, so place_order is total. -/
theorem loop_measure_decreases (o : Order) (oq : Nat) (hd : Order)
    (t : List Order) (h : oq ≠ 0) :
    (loopIter o oq hd t).2.2.length + (loopIter o oq hd t).2.1 <
        (hd :: t).length + oq ∧
      matchLoop o oq (hd :: t) =
        ⟨(loopIter o oq hd t).1 ::
            (matchLoop o (loopIter o oq hd t).2.1 (loopIter o oq hd t).2.2).trades,
          matchDelta o hd (loopIter o oq hd t).1.q +
            (matchLoop o (loopIter o oq hd t).2.1 (loopIter o oq hd t).2.2).delta,
          (matchLoop o (loopIter o oq hd t).2.1 (loopIter o oq hd t).2.2).backlog,
          (matchLoop o (loopIter o oq hd t).2.1 (loopIter o oq hd t).2.2).rem⟩ := by
  by_cases hq : hd.quantity - min oq hd.quantity = 0
  · constructor
    · dsimp only [loopIter]
      rw [if_pos hq]
      simp only [List.length_cons]
      omega
    · dsimp only [loopIter]
      rw [if_pos hq]
      exact matchLoop_cons_pop o oq hd t h hq
  · have h0 : oq - min oq hd.quantity = 0 := by omega
    constructor
    · dsimp only [loopIter]
      rw [if_neg hq]
      simp only [List.length_cons, h0]
      omega
    · dsimp only [loopIter]
      rw [if_neg hq, h0, matchLoop_zero]
      rw [matchLoop_cons_keep o oq hd t h hq]
      simp [h0]

/-- Witness for C10 at a concrete iteration: an incoming order with 3
remaining units against a resting head of 5 units. -/
theorem loop_measure_decreases_witness :
    (loopIter ⟨1, "X", Side.S, 12, 3⟩ 3 ⟨0, "X", Side.B, 10, 5⟩ []).2.2.length +
          (loopIter ⟨1, "X", Side.S, 12, 3⟩ 3 ⟨0, "X", Side.B, 10, 5⟩ []).2.1 <
        ([⟨0, "X", Side.B, 10, 5⟩] : List Order).length + 3 ∧
      matchLoop ⟨1, "X", Side.S, 12, 3⟩ 3 [⟨0, "X", Side.B, 10, 5⟩] =
        ⟨(loopIter ⟨1, "X", Side.S, 12, 3⟩ 3 ⟨0, "X", Side.B, 10, 5⟩ []).1 ::
            (matchLoop ⟨1, "X", Side.S, 12, 3⟩
              (loopIter ⟨1, "X", Side.S, 12, 3⟩ 3 ⟨0, "X", Side.B, 10, 5⟩ []).2.1
              (loopIter ⟨1, "X", Side.S, 12, 3⟩ 3 ⟨0, "X", Side.B, 10, 5⟩ []).2.2).trades,
          matchDelta ⟨1, "X", Side.S, 12, 3⟩ ⟨0, "X", Side.B, 10, 5⟩
              (loopIter ⟨1, "X", Side.S, 12, 3⟩ 3 ⟨0, "X", Side.B, 10, 5⟩ []).1.q +
            (matchLoop ⟨1, "X", Side.S, 12, 3⟩
              (loopIter ⟨1, "X", Side.S, 12, 3⟩ 3 ⟨0, "X", Side.B, 10, 5⟩ []).2.1
              (loopIter ⟨1, "X", Side.S, 12, 3⟩ 3 ⟨0, "X", Side.B, 10, 5⟩ []).2.2).delta,
          (matchLoop ⟨1, "X", Side.S, 12, 3⟩
            (loopIter ⟨1, "X", Side.S, 12, 3⟩ 3 ⟨0, "X", Side.B, 10, 5⟩ []).2.1
            (loopIter ⟨1, "X", Side.S, 12, 3⟩ 3 ⟨0, "X", Side.B, 10, 5⟩ []).2.2).backlog,
          (matchLoop ⟨1, "X", Side.S, 12, 3⟩
            (loopIter ⟨1, "X", Side.S, 12, 3⟩ 3 ⟨0, "X", Side.B, 10, 5⟩ []).2.1
            (loopIter ⟨1, "X", Side.S, 12, 3⟩ 3 ⟨0, "X", Side.B, 10, 5⟩ []).2.2).rem⟩ :=
  loop_measure_decreases ⟨1, "X", Side.S, 12, 3⟩ 3 ⟨0, "X", Side.B, 10, 5⟩ []
    (by decide)
